import Mathlib

/-
  Verification of the Replicant audio engine (replicant.cmajor).

  The engine is embedded shallowly: every float computation is modelled over ℚ
  with the source's literal constants written as exact rationals, the
  transcendental library functions (sin, cos, note-to-frequency, 2π) are
  abstracted into an `Oracles` record so that every definition stays
  executable, and the `wrap<N>` bounded index types are modelled as natural
  numbers reduced modulo N at each mutation, exactly where the source mutates
  them.  Each processor's `main` loop becomes an explicit per-tick state
  transition function plus a step-boundary function, iterated by a run
  function.
-/

namespace Replicant

/-- The musical clock divisor from the source: a quarter note lasts
sampleRate / clock samples. -/
def clock : ℚ := 9

/-- Truncation toward zero, modelling the cmajor int() cast from float. -/
def truncZ (x : ℚ) : ℤ := if x < 0 then -⌊-x⌋ else ⌊x⌋

/-- The transcendental library functions used by the source (std sin/cos,
std::notes::noteToFrequency and the constant twoPi), abstracted as
parameters of the embedding so all definitions remain executable; the
theorems hold for every interpretation of these functions. -/
structure Oracles where
  sinF : ℚ → ℚ
  cosF : ℚ → ℚ
  noteToFrequency : ℚ → ℚ
  twoPi : ℚ

/-- A concrete all-zero interpretation of the oracles, used to evaluate the
embedding on concrete inputs. -/
def oZero : Oracles := ⟨fun _ => 0, fun _ => 0, fun _ => 0, 0⟩

/-- cmajor clamp(v, lo, hi). -/
def clampQ (v lo hi : ℚ) : ℚ := min (max v lo) hi

/-- cmajor wrap(x, 1.0f): wraps a float into [0, 1). -/
def wrap1 (x : ℚ) : ℚ := x - ⌊x⌋

/-- Source: float pdSawtooth (float phase, float dcw). -/
def pdSawtooth (o : Oracles) (phase dcw0 : ℚ) : ℚ :=
  let dcw1 := clampQ dcw0 (1/1000) (999/1000)
  let dcw := (1 - dcw1) * (1/2)
  let hmdcw := 1/2 - dcw
  let arg1 := phase * (hmdcw / dcw)
  let arg2 := (-1 * phase + 1) * (hmdcw / (1 - dcw))
  let pd := phase + min arg1 arg2
  Neg.neg (o.cosF (pd * o.twoPi))

/-- Source: float pwm (float phase, float pw). -/
def pwm (phase pw0 : ℚ) : ℚ :=
  let pw := clampQ pw0 (1/100) (99/100)
  ((phase + wrap1 (phase + pw) * (-1) + pw) * 2) - 1

/-- Source: float triangle (float phase). -/
def triangle (phase : ℚ) : ℚ := 1 - |phase * 2 - 1|

/-- Source: float processPhasor (float& phase, float phaseIncr); the returned
value is also the new value stored in the phase variable. -/
def processPhasor (phase phaseIncr : ℚ) : ℚ := wrap1 (phase + phaseIncr)

/-- Source: float processSmoother (float& outm1, float in); the returned
value is also the new retained state. -/
def processSmoother (outm1 inp : ℚ) : ℚ := inp * (1/100) + outm1 * (99/100)

/-- processor.period. -/
def periodOf (R : ℚ) : ℚ := 1 / R

/-- Source: int (processor.frequency / clock), as used by Lead and Bass. -/
def samplesPerQuarterNote (R : ℚ) : ℕ := (truncZ (R / clock)).toNat

/-- Source (Delay.main): let delayTime = int ((processor.frequency / clock) * 3.98f). -/
def delayTimeZ (R : ℚ) : ℤ := truncZ ((R / clock) * (199/50))

/-! ### Delay processor -/

/-- The state of the Delay processor: the 44100-sample circular buffer, the
wrap<44100> write cursor, and the retained last output. -/
structure DelayState where
  buffer : ℕ → ℚ
  bufferIdx : ℕ
  lastOut : ℚ

/-- Delay.main locals before the loop: zeroed buffer, cursor 0. -/
def delayInit : DelayState := ⟨fun _ => 0, 0, 0⟩

/-- Source: wrap<44100> (bufferIdx - delayTime), the read position; the
conversion to the wrap type is Euclidean reduction modulo 44100. -/
def delayReadIdx (dt : ℤ) (idx : ℕ) : ℕ := (((idx : ℤ) - dt) % 44100).toNat

/-- One iteration of the Delay.main loop body at a given input sample. -/
def delayTick (fb : ℚ) (dt : ℤ) (s : DelayState) (input : ℚ) : DelayState × ℚ :=
  let out := s.buffer (delayReadIdx dt s.bufferIdx)
  let buf := Function.update s.buffer s.bufferIdx (input + out * fb)
  (⟨buf, (s.bufferIdx + 1) % 44100, out⟩, out)

/-- The Delay state after n loop iterations fed by the input stream. -/
def delayRun (fb : ℚ) (dt : ℤ) (input : ℕ → ℚ) : ℕ → DelayState
  | 0 => delayInit
  | n + 1 => (delayTick fb dt (delayRun fb dt input n) (input n)).1

/-- The audioOut sample emitted by the Delay at tick n. -/
def delayOutAt (fb : ℚ) (dt : ℤ) (input : ℕ → ℚ) (n : ℕ) : ℚ :=
  (delayTick fb dt (delayRun fb dt input n) (input n)).2

/-- Modelled from the spec: the spec's error-handling design demands that
initialization fail (refuse to start rendering) when the configuration
invariant is violated, i.e. when the sample rate is not positive or the
computed delayTime is not below the buffer capacity.  The source contains no
such check; this definition follows the spec's words for comparison with the
source embedding. -/
def delayInitSpec (R : ℚ) : Option ℤ :=
  if 0 < R ∧ delayTimeZ R < 44100 then some (delayTimeZ R) else none

/-! ### Lead processor -/

/-- One 16-cell row shape of the source trigger pattern: a 1 on the first cell. -/
def trigRowA : List ℤ := [1, 0, 0, 0, 0, 0, 0, 0, 0, 0, 0, 0, 0, 0, 0, 0]

/-- One 16-cell row shape of the source trigger pattern: 1s on cells 0 and 8. -/
def trigRowB : List ℤ := [1, 0, 0, 0, 0, 0, 0, 0, 1, 0, 0, 0, 0, 0, 0, 0]

/-- One 16-cell row shape of the source trigger pattern: 1s on cells 8 and 12. -/
def trigRowC : List ℤ := [0, 0, 0, 0, 0, 0, 0, 0, 1, 0, 0, 0, 1, 0, 0, 0]

/-- One 16-cell row shape of the source trigger pattern: all zeros. -/
def trigRowZ : List ℤ := [0, 0, 0, 0, 0, 0, 0, 0, 0, 0, 0, 0, 0, 0, 0, 0]

/-- Source (Lead.main): the 256-entry trigger pattern, assembled row by row in
the source's own 16-cells-per-line layout (rows 0..15 are A B A Z A B A Z
A B A C A Z Z Z). -/
def triggerArray : List ℤ :=
  trigRowA ++ trigRowB ++ trigRowA ++ trigRowZ ++
  trigRowA ++ trigRowB ++ trigRowA ++ trigRowZ ++
  trigRowA ++ trigRowB ++ trigRowA ++ trigRowC ++
  trigRowA ++ trigRowZ ++ trigRowZ ++ trigRowZ

/-- Source (Lead.main): the 15-entry pitch pattern. -/
def pitchArray : List ℤ := [69,67,65,64,67,66,64,62,65,64,62,57,55,60,57]

/-- Source (Lead.main): envPhaseIncr = float (processor.period * 4.f). -/
def envPhaseIncrOf (R : ℚ) : ℚ := periodOf R * 4

/-- Source (Lead.main): lfoPhaseIncr = float (processor.period * 0.8). -/
def lfoPhaseIncrOf (R : ℚ) : ℚ := periodOf R * (4/5)

/-- Source (Lead.main): noteLength = samplesPerQuarterNote * 1. -/
def leadNoteLength (R : ℚ) : ℕ := samplesPerQuarterNote R * 1

/-- The mutable locals of Lead.main that survive across samples; wrap<256>
playHead and wrap<15> pitchIdx are naturals kept below their modulus. -/
structure LeadState where
  playHead : ℕ
  pitchIdx : ℕ
  trig : Bool
  osc1Phasor : ℚ
  osc2Phasor : ℚ
  lfoPhasor : ℚ
  envPhasor : ℚ
  smootherOutm1 : ℚ
  basePitch : ℤ
  gate : ℚ

/-- Lead.main locals at entry: trig is explicitly true, everything else is
zero-initialized. -/
def leadInit : LeadState :=
  { playHead := 0, pitchIdx := 0, trig := true
    osc1Phasor := 0, osc2Phasor := 0, lfoPhasor := 0
    envPhasor := 0, smootherOutm1 := 0, basePitch := 0, gate := 0 }

/-- The trigger test at the top of the Lead inner loop body; the trigger
pattern is a parameter (the source bakes in triggerArray). -/
def leadTrigCheck (pat : List ℤ) (s : LeadState) : LeadState :=
  if 0 < pat.getD s.playHead 0 then
    if s.trig then
      { s with basePitch := pitchArray.getD s.pitchIdx 0
               pitchIdx := (s.pitchIdx + 1) % 15
               envPhasor := 0
               trig := false }
    else s
  else s

/-- One iteration of the Lead inner loop body (one sample); returns the new
state and the sample written to the out stream (the two stream writes of the
source sum within one frame). -/
def leadTick (pat : List ℤ) (o : Oracles) (R : ℚ) (s0 : LeadState) : LeadState × ℚ :=
  let s := leadTrigCheck pat s0
  let envPhasor := s.envPhasor + envPhaseIncrOf R
  let smo := processSmoother s.smootherOutm1 (clampQ envPhasor 0 1)
  let env := smo * s.gate
  let lfoPhasor := processPhasor s.lfoPhasor (lfoPhaseIncrOf R)
  let lfoMod := o.sinF (lfoPhasor * o.twoPi) * (1/10) * env
  let osc1PhaseIncr := o.noteToFrequency ((s.basePitch : ℚ) + lfoMod) * periodOf R
  let osc2PhaseIncr := o.noteToFrequency ((s.basePitch : ℚ) + lfoMod + 1/10) * periodOf R
  let osc1Phasor := processPhasor s.osc1Phasor osc1PhaseIncr
  let osc2Phasor := processPhasor s.osc2Phasor osc2PhaseIncr
  let out := (3/20) * pdSawtooth o osc1Phasor (9/10) * env
           + (3/20) * pdSawtooth o osc2Phasor (91/100) * env
  ({ s with envPhasor := envPhasor, smootherOutm1 := smo, lfoPhasor := lfoPhasor
            osc1Phasor := osc1Phasor, osc2Phasor := osc2Phasor }, out)

/-- The tail of the Lead outer loop body, run once after each noteLength
samples: playHead++, the gate is opened when playHead wraps to 0, and trig
is set back to true. -/
def leadStepBoundary (s : LeadState) : LeadState :=
  let playHead := (s.playHead + 1) % 256
  { s with playHead := playHead
           gate := if playHead = 0 then 1 else s.gate
           trig := true }

/-- One whole tick of Lead at tick index t: the inner loop body, followed by
the outer loop tail when this tick is the last sample of its step. -/
def leadAdvance (pat : List ℤ) (o : Oracles) (R : ℚ) (t : ℕ) (s : LeadState) : LeadState :=
  let s1 := (leadTick pat o R s).1
  if (t + 1) % leadNoteLength R = 0 then leadStepBoundary s1 else s1

/-- The Lead state after t ticks. -/
def leadRun (pat : List ℤ) (o : Oracles) (R : ℚ) : ℕ → LeadState
  | 0 => leadInit
  | t + 1 => leadAdvance pat o R t (leadRun pat o R t)

/-- The out sample Lead emits at tick t. -/
def leadOutAt (pat : List ℤ) (o : Oracles) (R : ℚ) (t : ℕ) : ℚ :=
  (leadTick pat o R (leadRun pat o R t)).2

/-! ### Bass processor -/

/-- Source (Bass.main): int[] arp = (57,57,59,60). -/
def arp : List ℤ := [57, 57, 59, 60]

/-- Source (Bass.main): int[] rootNotes = (0,0,7,2,5,5,0,0). -/
def rootNotes : List ℤ := [0, 0, 7, 2, 5, 5, 0, 0]

/-- The mutable locals of Bass.main that survive across samples; wrap<8>
rootIdx and wrap<32> playHead are naturals kept below their modulus.  The
per-step note constants are carried in the state and rewritten at every step
start. -/
structure BassState where
  osc1Phasor : ℚ
  osc2Phasor : ℚ
  lfoPhasor : ℚ
  rootIdx : ℕ
  playHead : ℕ
  env : ℚ
  osc1PhaseIncr : ℚ
  osc2PhaseIncr : ℚ
  lfoPhaseIncr : ℚ

/-- Bass.main locals at entry, zero-initialized. -/
def bassInit : BassState :=
  { osc1Phasor := 0, osc2Phasor := 0, lfoPhasor := 0, rootIdx := 0, playHead := 0
    env := 0, osc1PhaseIncr := 0, osc2PhaseIncr := 0, lfoPhaseIncr := 0 }

/-- The note number argument of noteToFrequency in Bass.main:
arp.at (playHead % 4) + rootNotes.at (rootIdx) - 12. -/
def bassNoteOf (s : BassState) : ℤ :=
  arp.getD (s.playHead % 4) 0 + rootNotes.getD s.rootIdx 0 - 12

/-- The head of the Bass outer loop body: the per-step note frequency, phase
increments and the fresh per-note envelope. -/
def bassStepStart (o : Oracles) (R : ℚ) (s : BassState) : BassState :=
  let noteFrequency := o.noteToFrequency ((bassNoteOf s : ℚ))
  { s with osc1PhaseIncr := noteFrequency * periodOf R
           osc2PhaseIncr := noteFrequency * periodOf R * (1/2)
           lfoPhaseIncr := (3/10) * periodOf R
           env := 1 }

/-- One iteration of the Bass inner loop body (one sample). -/
def bassTick (o : Oracles) (R : ℚ) (s : BassState) : BassState × ℚ :=
  let osc1Phasor := processPhasor s.osc1Phasor s.osc1PhaseIncr
  let lfoPhasor := processPhasor s.lfoPhasor s.lfoPhaseIncr
  let out1 := (3/10) * pwm osc1Phasor (triangle lfoPhasor) * s.env
  let osc2Phasor := processPhasor s.osc2Phasor s.osc2PhaseIncr
  let out2 := (3/10) * pdSawtooth o osc2Phasor (9/10)
  let env := s.env - 1 / (samplesPerQuarterNote R : ℚ)
  ({ s with osc1Phasor := osc1Phasor, osc2Phasor := osc2Phasor
            lfoPhasor := lfoPhasor, env := env }, out1 + out2)

/-- The tail of the Bass outer loop body: playHead++, and rootIdx++ when
playHead wraps to 0. -/
def bassStepEnd (s : BassState) : BassState :=
  let playHead := (s.playHead + 1) % 32
  { s with playHead := playHead
           rootIdx := if playHead = 0 then (s.rootIdx + 1) % 8 else s.rootIdx }

/-- One whole tick of Bass at tick index t: the step-start assignments when
this tick opens a step, the inner loop body, and the outer loop tail when
this tick closes a step. -/
def bassAdvance (o : Oracles) (R : ℚ) (t : ℕ) (s : BassState) : BassState :=
  let s1 := if t % samplesPerQuarterNote R = 0 then bassStepStart o R s else s
  let s2 := (bassTick o R s1).1
  if (t + 1) % samplesPerQuarterNote R = 0 then bassStepEnd s2 else s2

/-- The Bass state after t ticks. -/
def bassRun (o : Oracles) (R : ℚ) : ℕ → BassState
  | 0 => bassInit
  | t + 1 => bassAdvance o R t (bassRun o R t)

/-- The out sample Bass emits at tick t. -/
def bassOutAt (o : Oracles) (R : ℚ) (t : ℕ) : ℚ :=
  let s := bassRun o R t
  let s1 := if t % samplesPerQuarterNote R = 0 then bassStepStart o R s else s
  (bassTick o R s1).2

/-! ### Graph composer -/

/-- The Delay construction argument in the graph: Delay (0.35f). -/
def feedbackLevel : ℚ := 7/20

/-- The delay.audioOut stream at tick t; delay.audioIn is lead.out. -/
def engineDelayOut (o : Oracles) (R : ℚ) (t : ℕ) : ℚ :=
  delayOutAt feedbackLevel (delayTimeZ R) (leadOutAt triggerArray o R) t

/-- The summed engine output: bass.out + lead.out + delay.audioOut. -/
def engineOut (o : Oracles) (R : ℚ) (t : ℕ) : ℚ :=
  bassOutAt o R t + leadOutAt triggerArray o R t + engineDelayOut o R t

/-! ### Generic phase accumulator run -/

/-- A phase accumulator advanced by processPhasor under an arbitrary
sequence of increments. -/
def phasorRun (init : ℚ) (incrs : ℕ → ℚ) : ℕ → ℚ
  | 0 => init
  | n + 1 => processPhasor (phasorRun init incrs n) (incrs n)

end Replicant

namespace Replicant

set_option maxRecDepth 16000

/-! ### Helper lemmas -/

lemma truncZ_of_nonneg (x : ℚ) (h : 0 ≤ x) : truncZ x = ⌊x⌋ := by
  unfold truncZ
  rw [if_neg (not_lt.mpr h)]

lemma delayTimeZ_192000 : delayTimeZ 192000 = 84906 := by
  norm_num [delayTimeZ, truncZ, clock]

lemma delayReadIdx_lt (dt : ℤ) (idx : ℕ) : delayReadIdx dt idx < 44100 := by
  unfold delayReadIdx
  have h0 := Int.emod_nonneg ((idx : ℤ) - dt) (by norm_num : (44100 : ℤ) ≠ 0)
  have h1 := Int.emod_lt_of_pos ((idx : ℤ) - dt) (by norm_num : (0 : ℤ) < 44100)
  omega

lemma delayRun_bufferIdx (fb : ℚ) (dt : ℤ) (input : ℕ → ℚ) (t : ℕ) :
    (delayRun fb dt input t).bufferIdx = t % 44100 := by
  induction t with
  | zero => rfl
  | succ n ih =>
    show (delayTick fb dt (delayRun fb dt input n) (input n)).1.bufferIdx = (n + 1) % 44100
    simp only [delayTick]
    rw [ih, Nat.mod_add_mod]

lemma delayRun_buffer_zero (fb : ℚ) (dt : ℤ) (input : ℕ → ℚ) (n : ℕ)
    (h : ∀ s, s < n → input s = 0) : ∀ i, (delayRun fb dt input n).buffer i = 0 := by
  induction n with
  | zero => intro i; rfl
  | succ m ih =>
    intro i
    have hm : ∀ s, s < m → input s = 0 := fun s hs => h s (hs.trans (Nat.lt_succ_self m))
    show (delayTick fb dt (delayRun fb dt input m) (input m)).1.buffer i = 0
    simp only [delayTick]
    rw [Function.update_apply]
    split
    · rw [h m (Nat.lt_succ_self m), ih hm, zero_mul, add_zero]
    · exact ih hm i

lemma delayOutAt_zero (fb : ℚ) (dt : ℤ) (input : ℕ → ℚ) (n : ℕ)
    (h : ∀ s, s < n → input s = 0) : delayOutAt fb dt input n = 0 := by
  unfold delayOutAt
  simp only [delayTick]
  exact delayRun_buffer_zero fb dt input n h _

end Replicant

namespace Replicant

lemma leadTrigCheck_playHead (pat : List ℤ) (s : LeadState) :
    (leadTrigCheck pat s).playHead = s.playHead := by
  unfold leadTrigCheck
  split
  · split <;> rfl
  · rfl

lemma leadTrigCheck_gate (pat : List ℤ) (s : LeadState) :
    (leadTrigCheck pat s).gate = s.gate := by
  unfold leadTrigCheck
  split
  · split <;> rfl
  · rfl

lemma leadTrigCheck_smootherOutm1 (pat : List ℤ) (s : LeadState) :
    (leadTrigCheck pat s).smootherOutm1 = s.smootherOutm1 := by
  unfold leadTrigCheck
  split
  · split <;> rfl
  · rfl

lemma leadTrigCheck_gate_irrel (pat : List ℤ) (s : LeadState) (g : ℚ) :
    leadTrigCheck pat { s with gate := g } = { leadTrigCheck pat s with gate := g } := by
  unfold leadTrigCheck
  split
  · split <;> rfl
  · rfl

lemma leadTick_playHead (pat : List ℤ) (o : Oracles) (R : ℚ) (s : LeadState) :
    (leadTick pat o R s).1.playHead = s.playHead := by
  simp only [leadTick]
  exact leadTrigCheck_playHead pat s

lemma leadTick_gate (pat : List ℤ) (o : Oracles) (R : ℚ) (s : LeadState) :
    (leadTick pat o R s).1.gate = s.gate := by
  simp only [leadTick]
  exact leadTrigCheck_gate pat s

lemma leadTick_envPhasor (pat : List ℤ) (o : Oracles) (R : ℚ) (s : LeadState) :
    (leadTick pat o R s).1.envPhasor = (leadTrigCheck pat s).envPhasor + envPhaseIncrOf R := rfl

lemma leadTick_smootherOutm1 (pat : List ℤ) (o : Oracles) (R : ℚ) (s : LeadState) :
    (leadTick pat o R s).1.smootherOutm1 =
      processSmoother s.smootherOutm1
        (clampQ ((leadTrigCheck pat s).envPhasor + envPhaseIncrOf R) 0 1) := by
  simp only [leadTick]
  rw [leadTrigCheck_smootherOutm1]

lemma leadStepBoundary_playHead (s : LeadState) :
    (leadStepBoundary s).playHead = (s.playHead + 1) % 256 := rfl

lemma leadStepBoundary_gate (s : LeadState) :
    (leadStepBoundary s).gate = if (s.playHead + 1) % 256 = 0 then 1 else s.gate := rfl

lemma leadStepBoundary_smootherOutm1 (s : LeadState) :
    (leadStepBoundary s).smootherOutm1 = s.smootherOutm1 := rfl

lemma leadStepBoundary_envPhasor (s : LeadState) :
    (leadStepBoundary s).envPhasor = s.envPhasor := rfl

lemma leadStepBoundary_trig (s : LeadState) : (leadStepBoundary s).trig = true := rfl

end Replicant

namespace Replicant

lemma leadRun_playHead_gate (pat : List ℤ) (o : Oracles) (R : ℚ)
    (h : 0 < leadNoteLength R) (t : ℕ) :
    (leadRun pat o R t).playHead = (t / leadNoteLength R) % 256 ∧
    (leadRun pat o R t).gate = if 256 * leadNoteLength R ≤ t then 1 else 0 := by
  induction t with
  | zero =>
    constructor
    · simp [leadRun, leadInit, Nat.zero_div]
    · rw [if_neg (by omega : ¬ 256 * leadNoteLength R ≤ 0)]
      rfl
  | succ n ih =>
    obtain ⟨ihP, ihG⟩ := ih
    show (leadAdvance pat o R n (leadRun pat o R n)).playHead = _ ∧
      (leadAdvance pat o R n (leadRun pat o R n)).gate = _
    unfold leadAdvance
    by_cases hb : (n + 1) % leadNoteLength R = 0
    · have hdvd : leadNoteLength R ∣ (n + 1) := Nat.dvd_of_mod_eq_zero hb
      have hsd : (n + 1) / leadNoteLength R = n / leadNoteLength R + 1 :=
        Nat.succ_div_of_dvd hdvd
      have hmul : leadNoteLength R * (n / leadNoteLength R + 1) = n + 1 := by
        rw [← hsd]
        exact Nat.mul_div_cancel' hdvd
      rw [if_pos hb]
      constructor
      · rw [leadStepBoundary_playHead, leadTick_playHead, ihP, hsd, Nat.mod_add_mod]
      · rw [leadStepBoundary_gate, leadTick_playHead, leadTick_gate, ihP, ihG]
        rcases le_or_lt (256 * leadNoteLength R) n with hle | hlt
        · rw [if_pos (by omega : 256 * leadNoteLength R ≤ n + 1)]
          rw [if_pos hle]
          split <;> rfl
        · rw [if_neg (not_le.mpr hlt)]
          by_cases h256 : n + 1 = 256 * leadNoteLength R
          · have hq256 : n / leadNoteLength R + 1 = 256 := by
              have hmm : leadNoteLength R * (n / leadNoteLength R + 1) =
                  leadNoteLength R * 256 := by
                rw [hmul, h256, Nat.mul_comm]
              exact Nat.eq_of_mul_eq_mul_left h hmm
            have hcond : (n / leadNoteLength R % 256 + 1) % 256 = 0 := by
              have hlt256 : n / leadNoteLength R < 256 := by
                rw [← hq256]
                exact Nat.lt_succ_self _
              rw [Nat.mod_eq_of_lt hlt256, hq256]
            rw [if_pos hcond, if_pos (by omega : 256 * leadNoteLength R ≤ n + 1)]
          · have hlt2 : n + 1 < 256 * leadNoteLength R := by omega
            have hqlt : n / leadNoteLength R + 1 < 256 := by
              by_contra hcon
              push_neg at hcon
              have h1 : leadNoteLength R * 256 ≤
                  leadNoteLength R * (n / leadNoteLength R + 1) :=
                Nat.mul_le_mul_left (leadNoteLength R) hcon
              rw [hmul, Nat.mul_comm] at h1
              omega
            have hcond : ¬ (n / leadNoteLength R % 256 + 1) % 256 = 0 := by
              rw [Nat.mod_eq_of_lt (Nat.lt_of_succ_lt hqlt), Nat.mod_eq_of_lt hqlt]
              exact Nat.succ_ne_zero _
            rw [if_neg hcond, if_neg (by omega : ¬ 256 * leadNoteLength R ≤ n + 1)]
    · have hndvd : ¬ leadNoteLength R ∣ (n + 1) := by
        intro hd
        obtain ⟨c, hc⟩ := hd
        rw [hc, Nat.mul_mod_right] at hb
        exact hb rfl
      rw [if_neg hb]
      constructor
      · rw [leadTick_playHead, ihP, Nat.succ_div_of_not_dvd hndvd]
      · rw [leadTick_gate, ihG]
        rcases le_or_lt (256 * leadNoteLength R) n with hle | hlt
        · rw [if_pos hle, if_pos (by omega : 256 * leadNoteLength R ≤ n + 1)]
        · rw [if_neg (not_le.mpr hlt), if_neg ?hng]
          case hng =>
            intro hcon
            have heq : n + 1 = 256 * leadNoteLength R := by omega
            exact hndvd (by rw [heq]; exact dvd_mul_left (leadNoteLength R) 256)

end Replicant

namespace Replicant

lemma leadTick_out_gate_zero (pat : List ℤ) (o : Oracles) (R : ℚ) (s : LeadState)
    (h : s.gate = 0) : (leadTick pat o R s).2 = 0 := by
  simp only [leadTick]
  rw [leadTrigCheck_gate, h]
  ring

lemma leadOutAt_zero_before_wrap (pat : List ℤ) (o : Oracles) (R : ℚ)
    (h : 0 < leadNoteLength R) (t : ℕ) (hlt : t < 256 * leadNoteLength R) :
    leadOutAt pat o R t = 0 := by
  have hg := (leadRun_playHead_gate pat o R h t).2
  rw [if_neg (by omega : ¬ 256 * leadNoteLength R ≤ t)] at hg
  exact leadTick_out_gate_zero pat o R _ hg

lemma leadRun_playHead_lt (pat : List ℤ) (o : Oracles) (R : ℚ) (t : ℕ) :
    (leadRun pat o R t).playHead < 256 := by
  induction t with
  | zero => simp [leadRun, leadInit]
  | succ n ih =>
    show (leadAdvance pat o R n (leadRun pat o R n)).playHead < 256
    unfold leadAdvance
    split
    · rw [leadStepBoundary_playHead]
      exact Nat.mod_lt _ (by norm_num)
    · rw [leadTick_playHead]
      exact ih

lemma leadTrigCheck_pitchIdx_lt (pat : List ℤ) (s : LeadState) (h : s.pitchIdx < 15) :
    (leadTrigCheck pat s).pitchIdx < 15 := by
  unfold leadTrigCheck
  split
  · split
    · exact Nat.mod_lt _ (by norm_num)
    · exact h
  · exact h

lemma leadRun_pitchIdx_lt (pat : List ℤ) (o : Oracles) (R : ℚ) (t : ℕ) :
    (leadRun pat o R t).pitchIdx < 15 := by
  induction t with
  | zero => simp [leadRun, leadInit]
  | succ n ih =>
    show (leadAdvance pat o R n (leadRun pat o R n)).pitchIdx < 15
    unfold leadAdvance
    split
    · exact leadTrigCheck_pitchIdx_lt pat _ ih
    · exact leadTrigCheck_pitchIdx_lt pat _ ih

lemma bassAdvance_playHead (o : Oracles) (R : ℚ) (n : ℕ) (s : BassState) :
    (bassAdvance o R n s).playHead =
      if (n + 1) % samplesPerQuarterNote R = 0 then (s.playHead + 1) % 32
      else s.playHead := by
  unfold bassAdvance
  by_cases h1 : n % samplesPerQuarterNote R = 0 <;>
    by_cases h2 : (n + 1) % samplesPerQuarterNote R = 0 <;>
      simp [h1, h2, bassStepEnd, bassStepStart, bassTick]

lemma bassAdvance_rootIdx (o : Oracles) (R : ℚ) (n : ℕ) (s : BassState) :
    (bassAdvance o R n s).rootIdx =
      if (n + 1) % samplesPerQuarterNote R = 0 then
        (if (s.playHead + 1) % 32 = 0 then (s.rootIdx + 1) % 8 else s.rootIdx)
      else s.rootIdx := by
  unfold bassAdvance
  by_cases h1 : n % samplesPerQuarterNote R = 0 <;>
    by_cases h2 : (n + 1) % samplesPerQuarterNote R = 0 <;>
      simp [h1, h2, bassStepEnd, bassStepStart, bassTick]

lemma bassRun_playHead_lt (o : Oracles) (R : ℚ) (t : ℕ) :
    (bassRun o R t).playHead < 32 := by
  induction t with
  | zero => simp [bassRun, bassInit]
  | succ n ih =>
    show (bassAdvance o R n (bassRun o R n)).playHead < 32
    rw [bassAdvance_playHead]
    split
    · exact Nat.mod_lt _ (by norm_num)
    · exact ih

lemma bassRun_rootIdx_lt (o : Oracles) (R : ℚ) (t : ℕ) :
    (bassRun o R t).rootIdx < 8 := by
  induction t with
  | zero => simp [bassRun, bassInit]
  | succ n ih =>
    show (bassAdvance o R n (bassRun o R n)).rootIdx < 8
    rw [bassAdvance_rootIdx]
    split
    · split
      · exact Nat.mod_lt _ (by norm_num)
      · exact ih
    · exact ih

end Replicant

namespace Replicant

lemma not_dvd_of_mod_ne_zero {a b : ℕ} (h : ¬ b % a = 0) : ¬ a ∣ b := by
  intro hd
  obtain ⟨c, hc⟩ := hd
  rw [hc, Nat.mul_mod_right] at h
  exact h rfl

lemma bassRun_playHead_rootIdx (o : Oracles) (R : ℚ)
    (h : 0 < samplesPerQuarterNote R) (t : ℕ) :
    (bassRun o R t).playHead = (t / samplesPerQuarterNote R) % 32 ∧
    (bassRun o R t).rootIdx = (t / samplesPerQuarterNote R / 32) % 8 := by
  induction t with
  | zero => constructor <;> simp [bassRun, bassInit, Nat.zero_div]
  | succ n ih =>
    obtain ⟨ihP, ihR⟩ := ih
    show (bassAdvance o R n (bassRun o R n)).playHead = _ ∧
      (bassAdvance o R n (bassRun o R n)).rootIdx = _
    rw [bassAdvance_playHead, bassAdvance_rootIdx, ihP, ihR]
    by_cases hb : (n + 1) % samplesPerQuarterNote R = 0
    · have hdvd := Nat.dvd_of_mod_eq_zero hb
      have hsd : (n + 1) / samplesPerQuarterNote R = n / samplesPerQuarterNote R + 1 :=
        Nat.succ_div_of_dvd hdvd
      rw [if_pos hb, if_pos hb, hsd]
      constructor
      · rw [Nat.mod_add_mod]
      · rw [Nat.mod_add_mod, Nat.mod_add_mod]
        by_cases h32 : (n / samplesPerQuarterNote R + 1) % 32 = 0
        · have hdvd32 := Nat.dvd_of_mod_eq_zero h32
          rw [if_pos h32, Nat.succ_div_of_dvd hdvd32]
        · rw [if_neg h32, Nat.succ_div_of_not_dvd (not_dvd_of_mod_ne_zero h32)]
    · rw [if_neg hb, if_neg hb, Nat.succ_div_of_not_dvd (not_dvd_of_mod_ne_zero hb)]
      exact ⟨rfl, rfl⟩

end Replicant

namespace Replicant

set_option maxRecDepth 16000

/-! ### Claim C1 -/

/-- C1 counterexample: the sample rate 192000 lies in the claimed range
44100–192000, yet the computed delayTime int ((192000 / 9) * 3.98) = 84906 is
not below the buffer capacity 44100. -/
theorem delayTime_capacity_violated_at_192000 :
    (44100 : ℚ) ≤ 192000 ∧ (192000 : ℚ) ≤ 192000 ∧ ¬ delayTimeZ 192000 < 44100 := by
  refine ⟨by norm_num, by norm_num, ?_⟩
  rw [delayTimeZ_192000]
  norm_num

/-- C1 (amended): for every sample rate R with 44100 ≤ R ≤ 99723 and the default
clock divisor 9, the Delay processor's computed delayTime = int ((R / clock) * 3.98)
is strictly less than the buffer capacity 44100; the bound fails from
R ≈ 99723.6 upward, in particular at R = 192000. -/
theorem delayTime_lt_capacity_below_99723 (R : ℚ) (h1 : 44100 ≤ R) (h2 : R ≤ 99723) :
    delayTimeZ R < 44100 := by
  show truncZ (R / clock * (199/50)) < 44100
  rw [show clock = (9 : ℚ) from rfl]
  rw [truncZ_of_nonneg _ (by positivity : (0:ℚ) ≤ R / 9 * (199/50))]
  rw [Int.floor_lt]
  push_cast
  linarith

/-- C1 witness: the amended bound holds at the concrete rate 44100. -/
theorem delayTime_lt_capacity_below_99723_witness :
    (44100 : ℚ) ≤ 44100 ∧ (44100 : ℚ) ≤ 99723 ∧ delayTimeZ 44100 < 44100 :=
  ⟨le_refl _, by norm_num, delayTime_lt_capacity_below_99723 44100 (le_refl _) (by norm_num)⟩

/-! ### Claim C2 -/

/-- C2 counterexample: at sample rate 192000 the configuration invariant is
violated (delayTime = 84906 ≥ 44100, so the spec-modelled initialization refuses),
yet the source-embedded Delay starts rendering anyway: after one tick its write
cursor has advanced to 1, and the read offset is silently wrapped modulo 44100
to 3294 instead of initialization failing. -/
theorem delay_starts_and_wraps_at_192000 :
    44100 ≤ delayTimeZ 192000 ∧ delayInitSpec 192000 = none ∧
    (delayRun feedbackLevel (delayTimeZ 192000) (fun _ => 0) 1).bufferIdx = 1 ∧
    delayReadIdx (delayTimeZ 192000) 0 = 3294 := by
  refine ⟨?_, ?_, ?_, ?_⟩
  · rw [delayTimeZ_192000]
    norm_num
  · unfold delayInitSpec
    rw [delayTimeZ_192000]
    norm_num
  · rw [delayRun_bufferIdx]
  · rw [delayTimeZ_192000]
    decide

/-- C2 (amended): initialization never fails: the source performs no
configuration check, rendering proceeds at every tick for every delayTime
(the write cursor equals tick mod 44100), and the read offset is reduced
modulo the capacity by the wrap index type — in bounds, but a wrapped,
incorrect delay length whenever delayTime ≥ 44100. -/
theorem delay_never_refuses (fb : ℚ) (dt : ℤ) (input : ℕ → ℚ) (t : ℕ) :
    (delayRun fb dt input t).bufferIdx = t % 44100 ∧
    delayReadIdx dt (delayRun fb dt input t).bufferIdx < 44100 :=
  ⟨delayRun_bufferIdx fb dt input t, delayReadIdx_lt dt _⟩

/-! ### Claim C7 -/

/-- C7: for every initial phase and every sequence of phase increments, the value
held in the phase accumulator after each advance lies in [0, 1). -/
theorem phasor_in_unit_interval (init : ℚ) (incrs : ℕ → ℚ) (n : ℕ) :
    0 ≤ phasorRun init incrs (n + 1) ∧ phasorRun init incrs (n + 1) < 1 := by
  show 0 ≤ processPhasor (phasorRun init incrs n) (incrs n) ∧
    processPhasor (phasorRun init incrs n) (incrs n) < 1
  unfold processPhasor wrap1
  constructor
  · have h := Int.floor_le (phasorRun init incrs n + incrs n)
    linarith
  · have h := Int.lt_floor_add_one (phasorRun init incrs n + incrs n)
    push_cast at h
    linarith

/-! ### Claim C8 -/

/-- C8: every cyclic index of the engine stays within the bounds of the array it
indexes at every tick: the delay write cursor and read position (for every
delayTime, however large), the Lead 256-step playhead and 15-entry pitch index,
and the Bass 32-step playhead and 8-entry root-note index. -/
theorem cyclic_indices_in_bounds (o : Oracles) (R fb : ℚ) (dt : ℤ) (input : ℕ → ℚ)
    (pat : List ℤ) (t : ℕ) :
    (delayRun fb dt input t).bufferIdx < 44100 ∧
    delayReadIdx dt (delayRun fb dt input t).bufferIdx < 44100 ∧
    (leadRun pat o R t).playHead < 256 ∧
    (leadRun pat o R t).pitchIdx < 15 ∧
    (bassRun o R t).playHead < 32 ∧
    (bassRun o R t).rootIdx < 8 := by
  refine ⟨?_, delayReadIdx_lt dt _, leadRun_playHead_lt pat o R t,
    leadRun_pitchIdx_lt pat o R t, bassRun_playHead_lt o R t, bassRun_rootIdx_lt o R t⟩
  rw [delayRun_bufferIdx]
  exact Nat.mod_lt _ (by norm_num)

end Replicant

namespace Replicant

set_option maxRecDepth 16000

/-! ### Claim C3 -/

/-- C3 counterexample: with a trigger pattern holding two consecutive 1 cells and
one-sample steps (sample rate 9), the Lead sequencer restrikes on both cells:
after step 0 (whose cell is 1) the armed flag has been set back to true, and
during step 1 the note is struck again — the pitch index advances a second time
and the envelope phase is reset (value 4/9 after the reset plus one increment).
So the armed flag is re-armed while the current cell is 1, and a 1 cell
immediately following another 1 step does retrigger. -/
theorem lead_retrigger_on_consecutive_ones :
    (leadRun [1, 1] oZero 9 1).pitchIdx = 1 ∧
    (leadRun [1, 1] oZero 9 1).trig = true ∧
    ([(1 : ℤ), 1].getD (leadRun [1, 1] oZero 9 0).playHead 0 = 1) ∧
    (leadRun [1, 1] oZero 9 2).pitchIdx = 2 ∧
    (leadRun [1, 1] oZero 9 2).envPhasor = 4 / 9 := by
  have h1 : leadRun [1, 1] oZero 9 1 = leadAdvance [1, 1] oZero 9 0 leadInit := rfl
  have h2 : leadRun [1, 1] oZero 9 2 =
      leadAdvance [1, 1] oZero 9 1 (leadAdvance [1, 1] oZero 9 0 leadInit) := rfl
  have h0 : leadRun [1, 1] oZero 9 0 = leadInit := rfl
  rw [h0, h1, h2]
  norm_num [leadAdvance, leadTick, leadTrigCheck, leadStepBoundary, leadInit, leadNoteLength,
    samplesPerQuarterNote, truncZ, clock, envPhaseIncrOf, periodOf, pitchArray,
    processSmoother, processPhasor, clampQ, wrap1, lfoPhaseIncrOf, oZero]

/-- C3 (amended): the armed flag is set back to true unconditionally at the end of
every step, whatever the current trigger-pattern cell holds; re-triggering is
prevented only within a single step, so across an arbitrary trigger pattern a
1 cell immediately following another 1 step does retrigger.  The baked-in
256-entry pattern happens to contain no two consecutive 1 cells, so on it the
audible behavior coincides with rising-edge-only semantics. -/
theorem lead_rearm_unconditional :
    (∀ s : LeadState, (leadStepBoundary s).trig = true) ∧
    (∀ i : Fin 255, triggerArray.getD i.val 0 = 0 ∨ triggerArray.getD (i.val + 1) 0 = 0) := by
  constructor
  · intro s
    rfl
  · decide

/-! ### Claim C4 -/

/-- C4 counterexample: at sample rate 9 the Lead envelope increment is 4/9; three
ticks after the note restrike at tick 0 the stored envelope phase is 4/3, which
exceeds the clamp maximum 1 — the stored accumulator does not saturate at its
maximum. -/
theorem lead_envPhasor_exceeds_one :
    (leadRun triggerArray oZero 9 3).envPhasor = 4 / 3 ∧
    ¬ (leadRun triggerArray oZero 9 3).envPhasor ≤ 1 := by
  have h3 : leadRun triggerArray oZero 9 3 =
      leadAdvance triggerArray oZero 9 2
        (leadAdvance triggerArray oZero 9 1 (leadAdvance triggerArray oZero 9 0 leadInit)) := rfl
  rw [h3]
  norm_num [leadAdvance, leadTick, leadTrigCheck, leadStepBoundary, leadInit, leadNoteLength,
    samplesPerQuarterNote, truncZ, clock, envPhaseIncrOf, periodOf, triggerArray,
    trigRowA, trigRowB, trigRowC, trigRowZ, pitchArray,
    processSmoother, processPhasor, clampQ, wrap1, lfoPhaseIncrOf, oZero]

/-- C4 (amended): the stored envelope accumulator is neither wrapped nor
saturated: every tick adds envPhaseIncr to the stored value with no bound
applied, and the step boundary leaves it unchanged; what stays bounded is the
copy fed to the smoother, which is clamped into [0, 1]. -/
theorem lead_envPhasor_accumulates_unclamped (pat : List ℤ) (o : Oracles) (R : ℚ)
    (s : LeadState) :
    (leadTick pat o R s).1.envPhasor = (leadTrigCheck pat s).envPhasor + envPhaseIncrOf R ∧
    (leadStepBoundary s).envPhasor = s.envPhasor ∧
    0 ≤ clampQ ((leadTrigCheck pat s).envPhasor + envPhaseIncrOf R) 0 1 ∧
    clampQ ((leadTrigCheck pat s).envPhasor + envPhaseIncrOf R) 0 1 ≤ 1 ∧
    (leadTick pat o R s).1.smootherOutm1 =
      processSmoother s.smootherOutm1
        (clampQ ((leadTrigCheck pat s).envPhasor + envPhaseIncrOf R) 0 1) := by
  refine ⟨rfl, rfl, ?_, ?_, leadTick_smootherOutm1 pat o R s⟩
  · exact le_min (le_max_right _ 0) zero_le_one
  · exact min_le_right _ _

/-! ### Claim C5 -/

/-- C5: the Lead gate is 0 at every tick before the 256-step playhead completes
its first wrap (256 · noteLength ticks) and 1 at every tick from that point on,
and every Lead output sample emitted before the wrap is exactly 0. -/
theorem lead_gate_first_wrap (o : Oracles) (R : ℚ) (h : 0 < leadNoteLength R) (t : ℕ) :
    (t < 256 * leadNoteLength R →
      (leadRun triggerArray o R t).gate = 0 ∧ leadOutAt triggerArray o R t = 0) ∧
    (256 * leadNoteLength R ≤ t → (leadRun triggerArray o R t).gate = 1) := by
  constructor
  · intro hlt
    refine ⟨?_, leadOutAt_zero_before_wrap triggerArray o R h t hlt⟩
    have hg := (leadRun_playHead_gate triggerArray o R h t).2
    rwa [if_neg (by omega : ¬ 256 * leadNoteLength R ≤ t)] at hg
  · intro hle
    have hg := (leadRun_playHead_gate triggerArray o R h t).2
    rwa [if_pos hle] at hg

/-- C5 witness: at the concrete sample rate 9 (noteLength 1) and tick 3. -/
theorem lead_gate_first_wrap_witness :
    0 < leadNoteLength 9 ∧
    ((3 < 256 * leadNoteLength 9 →
      (leadRun triggerArray oZero 9 3).gate = 0 ∧ leadOutAt triggerArray oZero 9 3 = 0) ∧
    (256 * leadNoteLength 9 ≤ 3 → (leadRun triggerArray oZero 9 3).gate = 1)) := by
  have h : 0 < leadNoteLength 9 := by
    norm_num [leadNoteLength, samplesPerQuarterNote, truncZ, clock]
  exact ⟨h, lead_gate_first_wrap oZero 9 h 3⟩

/-! ### Claim C6 -/

/-- C6: at the start of the k-th quarter-note step, the Bass note number equals
arpeggio[k mod 4] + rootNotes[rootIndex] − 12 with the arpeggio values
(57, 57, 59, 60), the root index equals (k / 32) mod 8, and it increments
exactly at each wrap of the 32-step playhead. -/
theorem bass_arpeggio_indexing (o : Oracles) (R : ℚ)
    (h : 0 < samplesPerQuarterNote R) (k : ℕ) :
    bassNoteOf (bassRun o R (k * samplesPerQuarterNote R)) =
      [(57 : ℤ), 57, 59, 60].getD (k % 4) 0 + rootNotes.getD (k / 32 % 8) 0 - 12 ∧
    (bassRun o R (k * samplesPerQuarterNote R)).rootIdx = k / 32 % 8 ∧
    (bassRun o R ((k + 1) * samplesPerQuarterNote R)).rootIdx =
      (if (k + 1) % 32 = 0 then
        ((bassRun o R (k * samplesPerQuarterNote R)).rootIdx + 1) % 8
      else (bassRun o R (k * samplesPerQuarterNote R)).rootIdx) := by
  obtain ⟨hP, hR⟩ := bassRun_playHead_rootIdx o R h (k * samplesPerQuarterNote R)
  have hdiv : k * samplesPerQuarterNote R / samplesPerQuarterNote R = k :=
    Nat.mul_div_cancel k h
  rw [hdiv] at hP hR
  obtain ⟨hP1, hR1⟩ := bassRun_playHead_rootIdx o R h ((k + 1) * samplesPerQuarterNote R)
  have hdiv1 : (k + 1) * samplesPerQuarterNote R / samplesPerQuarterNote R = k + 1 :=
    Nat.mul_div_cancel (k + 1) h
  rw [hdiv1] at hR1
  refine ⟨?_, hR, ?_⟩
  · unfold bassNoteOf
    rw [hP, hR, Nat.mod_mod_of_dvd k (by norm_num : (4 : ℕ) ∣ 32)]
    rfl
  · rw [hR1, hR]
    by_cases h32 : (k + 1) % 32 = 0
    · rw [if_pos h32, Nat.succ_div_of_dvd (Nat.dvd_of_mod_eq_zero h32), Nat.mod_add_mod]
    · rw [if_neg h32, Nat.succ_div_of_not_dvd (not_dvd_of_mod_ne_zero h32)]

/-- C6 witness: at the concrete sample rate 9 and step 0. -/
theorem bass_arpeggio_indexing_witness :
    0 < samplesPerQuarterNote 9 ∧
    (bassNoteOf (bassRun oZero 9 (0 * samplesPerQuarterNote 9)) =
      [(57 : ℤ), 57, 59, 60].getD (0 % 4) 0 + rootNotes.getD (0 / 32 % 8) 0 - 12 ∧
    (bassRun oZero 9 (0 * samplesPerQuarterNote 9)).rootIdx = 0 / 32 % 8 ∧
    (bassRun oZero 9 ((0 + 1) * samplesPerQuarterNote 9)).rootIdx =
      (if (0 + 1) % 32 = 0 then
        ((bassRun oZero 9 (0 * samplesPerQuarterNote 9)).rootIdx + 1) % 8
      else (bassRun oZero 9 (0 * samplesPerQuarterNote 9)).rootIdx)) := by
  have h : 0 < samplesPerQuarterNote 9 := by
    norm_num [samplesPerQuarterNote, truncZ, clock]
  exact ⟨h, bass_arpeggio_indexing oZero 9 h 0⟩

end Replicant

namespace Replicant

set_option maxRecDepth 16000

/-! ### Claim C9 -/

/-- C9: for every tick t below delayTime the Delay output inside the engine
graph is exactly 0 (its buffer is zero-initialized and its input, the Lead
output, is still muted there), so the engine's summed output during those ticks
equals Bass plus Lead alone. -/
theorem delay_silent_start (o : Oracles) (R : ℚ) (h1 : 0 < leadNoteLength R)
    (h2 : delayTimeZ R ≤ 256 * (leadNoteLength R : ℤ)) (t : ℕ)
    (ht : (t : ℤ) < delayTimeZ R) :
    engineDelayOut o R t = 0 ∧
    engineOut o R t = bassOutAt o R t + leadOutAt triggerArray o R t := by
  have hz : ∀ s, s < t → leadOutAt triggerArray o R s = 0 := by
    intro s hs
    apply leadOutAt_zero_before_wrap triggerArray o R h1
    have hsz : (s : ℤ) < 256 * (leadNoteLength R : ℤ) := by
      have hst : (s : ℤ) < (t : ℤ) := by exact_mod_cast hs
      omega
    exact_mod_cast hsz
  have hd : engineDelayOut o R t = 0 := by
    unfold engineDelayOut
    exact delayOutAt_zero feedbackLevel (delayTimeZ R) _ t hz
  refine ⟨hd, ?_⟩
  unfold engineOut
  rw [hd, add_zero]

lemma leadNoteLength_44100 : leadNoteLength 44100 = 4900 := by
  have hto : Int.toNat 4900 = 4900 := rfl
  norm_num [leadNoteLength, samplesPerQuarterNote, truncZ, clock, hto]

/-- C9 witness: at the concrete sample rate 44100 (delayTime 19502) and tick 0. -/
theorem delay_silent_start_witness :
    0 < leadNoteLength 44100 ∧
    delayTimeZ 44100 ≤ 256 * (leadNoteLength 44100 : ℤ) ∧
    (((0 : ℕ) : ℤ) < delayTimeZ 44100) ∧
    (engineDelayOut oZero 44100 0 = 0 ∧
      engineOut oZero 44100 0 =
        bassOutAt oZero 44100 0 + leadOutAt triggerArray oZero 44100 0) := by
  have hdt : delayTimeZ 44100 = 19502 := by
    norm_num [delayTimeZ, truncZ, clock]
  have h1 : 0 < leadNoteLength 44100 := by
    rw [leadNoteLength_44100]
    norm_num
  have h2 : delayTimeZ 44100 ≤ 256 * (leadNoteLength 44100 : ℤ) := by
    rw [hdt, leadNoteLength_44100]
    norm_num
  have ht : ((0 : ℕ) : ℤ) < delayTimeZ 44100 := by
    rw [hdt]
    norm_num
  exact ⟨h1, h2, ht, delay_silent_start oZero 44100 h1 h2 0 ht⟩

/-! ### Claim C10 -/

/-- C10: the Lead one-pole smoother state is advanced by the smoothing
recurrence on every tick, and its update is independent of the gate value; the
step boundary — the only place the gate opens — leaves the smoother state
untouched (no reset); the gate enters the tick only as a multiplicative factor
of the emitted output sample. -/
theorem lead_smoother_updates_every_tick (pat : List ℤ) (o : Oracles) (R : ℚ)
    (s : LeadState) (g : ℚ) :
    (leadTick pat o R { s with gate := g }).1.smootherOutm1 =
      (leadTick pat o R s).1.smootherOutm1 ∧
    (leadTick pat o R s).1.smootherOutm1 =
      processSmoother s.smootherOutm1
        (clampQ ((leadTrigCheck pat s).envPhasor + envPhaseIncrOf R) 0 1) ∧
    (leadStepBoundary s).smootherOutm1 = s.smootherOutm1 ∧
    (leadTick pat o R s).2 =
      ((3/20) * pdSawtooth o ((leadTick pat o R s).1.osc1Phasor) (9/10)
        + (3/20) * pdSawtooth o ((leadTick pat o R s).1.osc2Phasor) (91/100)) *
        ((leadTick pat o R s).1.smootherOutm1 * s.gate) := by
  refine ⟨?_, leadTick_smootherOutm1 pat o R s, rfl, ?_⟩
  · rw [leadTick_smootherOutm1, leadTick_smootherOutm1, leadTrigCheck_gate_irrel]
  · simp only [leadTick, leadTrigCheck_gate, leadTrigCheck_smootherOutm1]
    ring

end Replicant
